import Mathlib

/-!
Shallow embedding of the Onchain-Orderbook matching and settlement pipeline
(src/program/src/instructions/, src/program/src/state.rs).

Machine integers (`u64`) are modelled as `Nat` with explicit wrapping
arithmetic modulo `2 ^ 64` (`wadd`, `wsub`, `wmul`), matching Rust release
semantics where `-=` / `+=` / `*` wrap on overflow.  Pubkeys are modelled as
`Nat` with `0` the default (zero) key.  Account-address / PDA / signer
validation from the Rust code is elided: it relates account handles, never
the deserialized data the claims below are about.  Fallible instructions
return `Except Err Exchange`; the Solana runtime rolls back a transaction
that returns an error, which the `run*` wrappers make explicit.
-/

namespace Clob

/-- Size of the `u64` value space. -/
def U64 : Nat := 2 ^ 64

/-- Wrapping `u64` addition. -/
def wadd (a b : Nat) : Nat := (a + b) % U64

/-- Wrapping `u64` subtraction (two's-complement wraparound on underflow). -/
def wsub (a b : Nat) : Nat := (a % U64 + U64 - b % U64) % U64

/-- Wrapping `u64` multiplication. -/
def wmul (a b : Nat) : Nat := (a * b) % U64

/-- The fixed-point scale factor `S = 10^9` (the literal `1_000_000_000`). -/
def SCALE : Nat := 1000000000

/-- `state.rs`: `pub const MAX_ORDERS: usize = 64`. -/
def MAX_ORDERS : Nat := 64

/-- `state.rs`: `pub const MAX_EVENTS: usize = 100`. -/
def MAX_EVENTS : Nat := 100

/-- `instructions/consume_events.rs`: `const MAX_EVENTS_TO_CONSUME: usize = 7`. -/
def MAX_EVENTS_TO_CONSUME : Nat := 7

/-- `state.rs` `Side` (Buy = 1, Sell = 2 on the wire). -/
inductive Side where
  | Buy
  | Sell
deriving DecidableEq, Repr

/-- `state.rs` `EventType` (Fill = 0, Out = 1 on the wire). -/
inductive EventType where
  | Fill
  | Out
deriving DecidableEq, Repr

/-- `state.rs` `Order`. -/
structure Order where
  order_id : Nat
  owner : Nat
  market : Nat
  side : Side
  price : Nat
  quantity : Nat
  filled_quantity : Nat
  timestamp : Int
deriving DecidableEq, Repr

/-- `state.rs` `Event`. -/
structure Event where
  event_type : EventType
  maker : Nat
  taker : Nat
  maker_order_id : Nat
  quantity : Nat
  price : Nat
  timestamp : Int
  side : Side
deriving DecidableEq, Repr

/-- `state.rs` `OrderBook`. -/
structure OrderBook where
  market : Nat
  side : Side
  orders : List Order
  active_orders_count : Nat
deriving DecidableEq, Repr

/-- `state.rs` `MarketEvents`. -/
structure MarketEvents where
  market : Nat
  head : Nat
  count : Nat
  seq_num : Nat
  events_to_process : Nat
  events : List Event
deriving DecidableEq, Repr

/-- `state.rs` `UserBalance`: the six `u64` buckets. -/
structure UserBalance where
  owner : Nat
  market : Nat
  available_base_balance : Nat
  available_quote_balance : Nat
  locked_base_balance : Nat
  locked_quote_balance : Nat
  pending_base_balance : Nat
  pending_quote_balance : Nat
deriving DecidableEq, Repr

/-- The fields of `state.rs` `MarketState` that the embedded instructions
read or write (the remaining fields are address handles and unused
policy/statistics fields). -/
structure MarketState where
  next_order_id : Nat
deriving DecidableEq, Repr

/-- An SPL token wallet pair of one user (base-mint and quote-mint token
accounts), as seen by the abstract token ledger. -/
structure Wallet where
  owner : Nat
  base : Nat
  quote : Nat
deriving DecidableEq, Repr

/-- Error outcomes of the embedded instructions.  `QueueFull` is
`ProgramError::Custom(1)`, `BookFull` is `Custom(2)`, `OrderNotFound` is
`Custom(3)`; `InsufficientFunds` and `InvalidAccount` are the homonymous
`ProgramError`s; `TokenTransferFailed` stands for a refused SPL transfer. -/
inductive Err where
  | QueueFull
  | BookFull
  | OrderNotFound
  | InsufficientFunds
  | InvalidAccount
  | TokenTransferFailed
deriving DecidableEq, Repr

/-- The records one market comprises: market header, the two books, the
event queue, every user balance account, every user wallet, and the two
vault token accounts. -/
structure Exchange where
  market_key : Nat
  market : MarketState
  bids : OrderBook
  asks : OrderBook
  events : MarketEvents
  balances : List UserBalance
  wallets : List Wallet
  base_vault : Nat
  quote_vault : Nat
deriving DecidableEq, Repr

/-- Look up the user-balance account of `u` (PDA lookup by owner key). -/
def getBalance (balances : List UserBalance) (u : Nat) : Option UserBalance :=
  balances.find? (fun b => b.owner == u)

/-- In-place rewrite of the user-balance account of `u` (the Rust
deserialize–mutate–serialize pattern on one account). -/
def updateBalance (balances : List UserBalance) (u : Nat)
    (f : UserBalance → UserBalance) : List UserBalance :=
  balances.map (fun b => if b.owner == u then f b else b)

/-- Look up the wallet of `u`. -/
def getWallet (wallets : List Wallet) (u : Nat) : Option Wallet :=
  wallets.find? (fun w => w.owner == u)

/-- In-place rewrite of the wallet of `u`. -/
def updateWallet (wallets : List Wallet) (u : Nat)
    (f : Wallet → Wallet) : List Wallet :=
  wallets.map (fun w => if w.owner == u then f w else w)

/-- `state.rs` `MarketEvents::add_event`: fail `QueueFull` when the vector
already holds `MAX_EVENTS` events, else push and bump `count`, `seq_num`
and `events_to_process`. -/
def add_event (ev : MarketEvents) (e : Event) : Except Err MarketEvents :=
  if MAX_EVENTS ≤ ev.events.length then .error .QueueFull
  else .ok { ev with
    events := ev.events ++ [e]
    count := wadd ev.count 1
    seq_num := wadd ev.seq_num 1
    events_to_process := wadd ev.events_to_process 1 }

/-- `state.rs` `OrderBook::add_order`: fail `BookFull` when the vector
already holds `MAX_ORDERS` orders, else push and bump
`active_orders_count`. -/
def add_order (b : OrderBook) (o : Order) : Except Err OrderBook :=
  if MAX_ORDERS ≤ b.orders.length then .error .BookFull
  else .ok { b with
    orders := b.orders ++ [o]
    active_orders_count := wadd b.active_orders_count 1 }

/-- Price-crossing test of `instructions/place_order.rs` line 353:
a taker Buy crosses maker `o` iff `price >= o.price`, a taker Sell iff
`price <= o.price`. -/
def crosses (side : Side) (price : Nat) (o : Order) : Bool :=
  match side with
  | .Buy => o.price ≤ price
  | .Sell => price ≤ o.price

/-- The matching loop of `instructions/place_order.rs` lines 347–392: walk
the maker book from index 0; stop when the remaining taker quantity is 0;
on a price cross with positive fill, bump the maker's `filled_quantity`,
decrement the remaining quantity, and append a `Fill` event carrying the
maker's price; a maker whose `filled_quantity` reaches its `quantity` is
marked for removal (`orders_to_remove`).  Returns the in-place updated
orders, each paired with its removal mark, the remaining taker quantity,
and the event queue. -/
def matching_loop (side : Side) (price taker : Nat) (ts : Int) :
    List Order → Nat → MarketEvents →
    Except Err (List (Order × Bool) × Nat × MarketEvents)
  | [], rem, ev => .ok ([], rem, ev)
  | o :: rest, rem, ev =>
    if rem = 0 then
      .ok ((o, false) :: rest.map (fun x => (x, false)), rem, ev)
    else
      let fill := min rem (wsub o.quantity o.filled_quantity)
      if crosses side price o ∧ 0 < fill then do
        let o' := { o with filled_quantity := wadd o.filled_quantity fill }
        let ev' ← add_event ev
          { event_type := .Fill
            maker := o.owner
            taker := taker
            maker_order_id := o.order_id
            quantity := fill
            price := o.price
            timestamp := ts
            side := side }
        let (rest', rem', ev'') ← matching_loop side price taker ts rest (wsub rem fill) ev'
        .ok ((o', o'.filled_quantity == o'.quantity) :: rest', rem', ev'')
      else do
        let (rest', rem', ev'') ← matching_loop side price taker ts rest rem ev
        .ok ((o, false) :: rest', rem', ev'')

/-- Iterated `u64` decrement by 1 (`active_orders_count -= 1` once per
removed order, lines 394–397). -/
def wdec (c : Nat) : Nat → Nat
  | 0 => c
  | k + 1 => wdec (wsub c 1) k

/-- `instructions/place_order.rs` lines 274–429 after account validation.
Collateral: `required_base = quantity` for a Sell, `required_quote =
quantity * price / 10^9` for a Buy; insufficient available balance fails
`InsufficientFunds` before any effect.  The collateral is pulled from the
user's wallet into the vault, the available bucket is debited and the
locked bucket credited, the opposite book is matched (fills append events),
fully-filled makers are removed (`Vec::remove` at the marked indices in
descending order, which keeps the unmarked orders in their original
relative order), and a positive residual is appended to the taker book
with a fresh `order_id`.  All account writes happen only on the `Ok`
path (the Rust code serializes at the very end; on `Err` the runtime
rolls the transaction back). -/
def process_place_order (s : Exchange) (user : Nat) (side : Side)
    (price quantity : Nat) (ts : Int) : Except Err Exchange := do
  let ub ← match getBalance s.balances user with
    | some b => Except.ok b
    | none => Except.error Err.InvalidAccount
  let w ← match getWallet s.wallets user with
    | some w => Except.ok w
    | none => Except.error Err.InvalidAccount
  let required_base := if side = Side.Sell then quantity else 0
  let required_quote := if side = Side.Buy then wmul quantity price / SCALE else 0
  if ub.available_base_balance < required_base
      ∨ ub.available_quote_balance < required_quote then
    Except.error Err.InsufficientFunds
  else
    -- SPL transfer of the collateral from the user's wallet to the vault
    let (w', base_vault', quote_vault') ←
      if side = Side.Buy then
        if w.quote < required_quote then Except.error Err.TokenTransferFailed
        else Except.ok ({ w with quote := w.quote - required_quote },
          s.base_vault, wadd s.quote_vault required_quote)
      else
        if w.base < required_base then Except.error Err.TokenTransferFailed
        else Except.ok ({ w with base := w.base - required_base },
          wadd s.base_vault required_base, s.quote_vault)
    let maker_orders := if side = Side.Buy then s.asks.orders else s.bids.orders
    let (pairs, remaining, events') ←
      matching_loop side price user ts maker_orders quantity s.events
    let kept := (pairs.filter (fun p => !p.2)).map Prod.fst
    let removed := (pairs.filter (fun p => p.2)).length
    let maker_count :=
      wdec (if side = Side.Buy then s.asks.active_orders_count
            else s.bids.active_orders_count) removed
    let taker_book := if side = Side.Buy then s.bids else s.asks
    let (taker_book', next_id') ←
      if 0 < remaining then do
        let tb ← add_order taker_book
          { order_id := s.market.next_order_id
            owner := user
            market := s.market_key
            side := side
            price := price
            quantity := remaining
            filled_quantity := 0
            timestamp := ts }
        Except.ok (tb, wadd s.market.next_order_id 1)
      else Except.ok (taker_book, s.market.next_order_id)
    Except.ok { s with
      market := { next_order_id := next_id' }
      bids := if side = Side.Buy then taker_book'
        else { s.bids with orders := kept, active_orders_count := maker_count }
      asks := if side = Side.Buy then
          { s.asks with orders := kept, active_orders_count := maker_count }
        else taker_book'
      events := events'
      balances := updateBalance s.balances user (fun b => { b with
        available_base_balance := wsub b.available_base_balance required_base
        locked_base_balance := wadd b.locked_base_balance required_base
        available_quote_balance := wsub b.available_quote_balance required_quote
        locked_quote_balance := wadd b.locked_quote_balance required_quote })
      wallets := updateWallet s.wallets user (fun _ => w')
      base_vault := base_vault'
      quote_vault := quote_vault' }

/-- `instructions/cancel_order.rs` lines 149–260 after account validation.
Scan the bids for the first order with this `order_id` and `owner`; on a
hit, unlock `remaining * price / 10^9` from locked quote into available
quote, drop every matching slot by the write-index left-shift loop (which
keeps the other orders in their original relative order) and decrement
`active_orders_count` once; otherwise scan the asks the same way with the
base buckets.  No hit in either book fails `OrderNotFound`.  Finally an
`Out` event with the remaining quantity is appended. -/
def process_cancel_order (s : Exchange) (user order_id : Nat) (ts : Int) :
    Except Err Exchange := do
  let _ub ← match getBalance s.balances user with
    | some b => Except.ok b
    | none => Except.error Err.InvalidAccount
  let pred := fun (o : Order) => o.order_id == order_id && o.owner == user
  match s.bids.orders.find? pred with
  | some o =>
    let remaining_quantity := wsub o.quantity o.filled_quantity
    let locked_quote := wmul remaining_quantity o.price / SCALE
    let balances' := updateBalance s.balances user (fun b => { b with
      locked_quote_balance := wsub b.locked_quote_balance locked_quote
      available_quote_balance := wadd b.available_quote_balance locked_quote })
    let bids' := { s.bids with
      orders := s.bids.orders.filter (fun x => !pred x)
      active_orders_count := wsub s.bids.active_orders_count 1 }
    let events' ← add_event s.events
      { event_type := .Out
        maker := user
        taker := 0
        maker_order_id := order_id
        quantity := wsub o.quantity o.filled_quantity
        price := o.price
        timestamp := ts
        side := o.side }
    Except.ok { s with balances := balances', bids := bids', events := events' }
  | none =>
    match s.asks.orders.find? pred with
    | some o =>
      let remaining_quantity := wsub o.quantity o.filled_quantity
      let balances' := updateBalance s.balances user (fun b => { b with
        locked_base_balance := wsub b.locked_base_balance remaining_quantity
        available_base_balance := wadd b.available_base_balance remaining_quantity })
      let asks' := { s.asks with
        orders := s.asks.orders.filter (fun x => !pred x)
        active_orders_count := wsub s.asks.active_orders_count 1 }
      let events' ← add_event s.events
        { event_type := .Out
          maker := user
          taker := 0
          maker_order_id := order_id
          quantity := wsub o.quantity o.filled_quantity
          price := o.price
          timestamp := ts
          side := o.side }
      Except.ok { s with balances := balances', asks := asks', events := events' }
    | none => Except.error Err.OrderNotFound

/-- Participant resolution of `instructions/consume_events.rs`: a user's
balance is touched only when the caller passed the matching balance
account (membership in `provided`) and that account exists; a missing
account is silently skipped for that side. -/
def resolved (provided : List Nat) (balances : List UserBalance) (u : Nat) : Bool :=
  provided.contains u && (getBalance balances u).isSome

/-- Balance transitions of one consumed event,
`instructions/consume_events.rs` lines 101–238.  `quote_amount =
quantity * price / 10^9`.  A `Fill` with `maker == taker` (self-trade)
unlocks once on the taker's side; a normal `Fill` moves the maker's and
then the taker's locked collateral to pending; an `Out` unconditionally
moves the locked collateral back to available (the subtraction is a plain
`u64` `-=` — there is no sufficiency test, so it wraps on underflow). -/
def applyEvent (provided : List Nat) (_marketKey : Nat)
    (balances : List UserBalance) (e : Event) : List UserBalance :=
  let quote_amount := wmul e.quantity e.price / SCALE
  match e.event_type with
  | .Fill =>
    if e.maker = e.taker then
      if resolved provided balances e.maker then
        updateBalance balances e.maker (fun b =>
          if e.side = Side.Buy then { b with
            locked_quote_balance := wsub b.locked_quote_balance quote_amount
            available_quote_balance := wadd b.available_quote_balance quote_amount }
          else { b with
            locked_base_balance := wsub b.locked_base_balance e.quantity
            available_base_balance := wadd b.available_base_balance e.quantity })
      else balances
    else
      let afterMaker :=
        if resolved provided balances e.maker then
          updateBalance balances e.maker (fun b =>
            if e.side = Side.Buy then { b with
              locked_base_balance := wsub b.locked_base_balance e.quantity
              pending_quote_balance := wadd b.pending_quote_balance quote_amount }
            else { b with
              locked_quote_balance := wsub b.locked_quote_balance quote_amount
              pending_base_balance := wadd b.pending_base_balance e.quantity })
        else balances
      if resolved provided afterMaker e.taker then
        updateBalance afterMaker e.taker (fun b =>
          if e.side = Side.Buy then { b with
            locked_quote_balance := wsub b.locked_quote_balance quote_amount
            pending_base_balance := wadd b.pending_base_balance e.quantity }
          else { b with
            locked_base_balance := wsub b.locked_base_balance e.quantity
            pending_quote_balance := wadd b.pending_quote_balance quote_amount })
      else afterMaker
  | .Out =>
    if resolved provided balances e.maker then
      updateBalance balances e.maker (fun b =>
        if e.side = Side.Buy then { b with
          locked_quote_balance := wsub b.locked_quote_balance quote_amount
          available_quote_balance := wadd b.available_quote_balance quote_amount }
        else { b with
          locked_base_balance := wsub b.locked_base_balance e.quantity
          available_base_balance := wadd b.available_base_balance e.quantity })
    else balances

/-- The consumption loop of `instructions/consume_events.rs` lines 68–242:
`for i in 0..events_to_process`, breaking at the end of the events vector
or after `MAX_EVENTS_TO_CONSUME` consumptions; an event whose maker and
taker are both the zero key is skipped without counting.  Returns the
updated balances and the number of events consumed. -/
def consumeLoop (provided : List Nat) (marketKey : Nat) :
    List Event → Nat → Nat → List UserBalance → List UserBalance × Nat
  | [], _, consumed, balances => (balances, consumed)
  | _, 0, consumed, balances => (balances, consumed)
  | e :: rest, n + 1, consumed, balances =>
    if MAX_EVENTS_TO_CONSUME ≤ consumed then (balances, consumed)
    else if e.maker = 0 ∧ e.taker = 0 then
      consumeLoop provided marketKey rest n consumed balances
    else
      consumeLoop provided marketKey rest n (consumed + 1)
        (applyEvent provided marketKey balances e)

/-- `instructions/consume_events.rs` lines 52–251 after authority checks.
Runs the consumption loop and then sets `events_to_process` to
`events_to_process.saturating_sub(consumed_count)`.  The events vector
itself is left untouched: this function performs no compaction and removes
nothing from the queue. -/
def process_consume_events (s : Exchange) (provided : List Nat) : Exchange :=
  let (balances', consumed) :=
    consumeLoop provided s.market_key s.events.events
      s.events.events_to_process 0 s.balances
  { s with
    balances := balances'
    events := { s.events with
      events_to_process := s.events.events_to_process - consumed } }

/-- `instructions/settle_balance.rs` lines 27–197 after account checks.
If both pending buckets are zero, succeed without touching anything.
Otherwise transfer `pending_base` (when positive) from the base vault to
the user's base wallet and zero the bucket, then likewise for quote. -/
def process_settle_balance (s : Exchange) (user : Nat) : Except Err Exchange := do
  let ub ← match getBalance s.balances user with
    | some b => Except.ok b
    | none => Except.error Err.InvalidAccount
  let settle_base_tokens := 0 < ub.pending_base_balance
  let settle_quote_tokens := 0 < ub.pending_quote_balance
  if ¬settle_base_tokens ∧ ¬settle_quote_tokens then
    Except.ok s
  else do
    let w ← match getWallet s.wallets user with
      | some w => Except.ok w
      | none => Except.error Err.InvalidAccount
    let (base_vault', wbase') ←
      if settle_base_tokens then
        if s.base_vault < ub.pending_base_balance then
          Except.error Err.TokenTransferFailed
        else Except.ok (s.base_vault - ub.pending_base_balance,
          wadd w.base ub.pending_base_balance)
      else Except.ok (s.base_vault, w.base)
    let (quote_vault', wquote') ←
      if settle_quote_tokens then
        if s.quote_vault < ub.pending_quote_balance then
          Except.error Err.TokenTransferFailed
        else Except.ok (s.quote_vault - ub.pending_quote_balance,
          wadd w.quote ub.pending_quote_balance)
      else Except.ok (s.quote_vault, w.quote)
    Except.ok { s with
      balances := updateBalance s.balances user (fun b => { b with
        pending_base_balance := if settle_base_tokens then 0 else b.pending_base_balance
        pending_quote_balance := if settle_quote_tokens then 0 else b.pending_quote_balance })
      wallets := updateWallet s.wallets user (fun w => { w with
        base := wbase', quote := wquote' })
      base_vault := base_vault'
      quote_vault := quote_vault' }

/-- `instructions/create_user_account.rs` base-deposit path (lines
302–346): transfer `quantity` base tokens from the user's wallet into the
base vault and credit `available_base_balance` (creating the balance
account on first deposit).  A zero quantity changes nothing. -/
def process_deposit_base (s : Exchange) (user quantity : Nat) : Except Err Exchange := do
  if quantity = 0 then Except.ok s
  else do
    let w ← match getWallet s.wallets user with
      | some w => Except.ok w
      | none => Except.error Err.InvalidAccount
    if w.base < quantity then Except.error Err.TokenTransferFailed
    else
      let balances' :=
        if (getBalance s.balances user).isSome then
          updateBalance s.balances user (fun b => { b with
            available_base_balance := wadd b.available_base_balance quantity })
        else s.balances ++
          [{ owner := user, market := s.market_key, available_base_balance := quantity, available_quote_balance := 0, locked_base_balance := 0, locked_quote_balance := 0, pending_base_balance := 0, pending_quote_balance := 0 }]
      Except.ok { s with
        balances := balances'
        wallets := updateWallet s.wallets user (fun w => { w with base := w.base - quantity })
        base_vault := wadd s.base_vault quantity }

/-- `instructions/create_user_account.rs` quote-deposit path (lines
132–179): the quote analogue of the base deposit. -/
def process_deposit_quote (s : Exchange) (user quantity : Nat) : Except Err Exchange := do
  if quantity = 0 then Except.ok s
  else do
    let w ← match getWallet s.wallets user with
      | some w => Except.ok w
      | none => Except.error Err.InvalidAccount
    if w.quote < quantity then Except.error Err.TokenTransferFailed
    else
      let balances' :=
        if (getBalance s.balances user).isSome then
          updateBalance s.balances user (fun b => { b with
            available_quote_balance := wadd b.available_quote_balance quantity })
        else s.balances ++
          [{ owner := user, market := s.market_key, available_base_balance := 0, available_quote_balance := quantity, locked_base_balance := 0, locked_quote_balance := 0, pending_base_balance := 0, pending_quote_balance := 0 }]
      Except.ok { s with
        balances := balances'
        wallets := updateWallet s.wallets user (fun w => { w with quote := w.quote - quantity })
        quote_vault := wadd s.quote_vault quantity }

/-- Transaction semantics of the host: an instruction that returns an
error leaves every record unchanged (the runtime rolls back), a
successful one commits its result. -/
def commit (s : Exchange) : Except Err Exchange → Exchange
  | .ok s' => s'
  | .error _ => s

/-- `PlaceOrder` as a whole transaction (rollback on error). -/
def runPlaceOrder (s : Exchange) (user : Nat) (side : Side)
    (price quantity : Nat) (ts : Int) : Exchange :=
  commit s (process_place_order s user side price quantity ts)

/-- `CancelOrder` as a whole transaction (rollback on error). -/
def runCancelOrder (s : Exchange) (user order_id : Nat) (ts : Int) : Exchange :=
  commit s (process_cancel_order s user order_id ts)

/-- `SettleBalance` as a whole transaction (rollback on error). -/
def runSettleBalance (s : Exchange) (user : Nat) : Exchange :=
  commit s (process_settle_balance s user)

end Clob

namespace Clob

def emptyBids : OrderBook :=
  { market := 5, side := .Buy, orders := [], active_orders_count := 0 }

def emptyAsks : OrderBook :=
  { market := 5, side := .Sell, orders := [], active_orders_count := 0 }

def emptyEvents : MarketEvents :=
  { market := 5, head := 0, count := 0, seq_num := 0, events_to_process := 0, events := [] }

def s0 : Exchange :=
  { market_key := 5
    market := { next_order_id := 1 }
    bids := emptyBids
    asks := emptyAsks
    events := emptyEvents
    balances := []
    wallets := [{ owner := 1, base := 100, quote := 0 }, { owner := 2, base := 0, quote := 100 }]
    base_vault := 0
    quote_vault := 0 }

/-- The valid-operation sequence behind claims C2 and C3 up to just before
event consumption: deposit 10 quote for user 2, place `Buy(price = S,
qty = 5)` (locks 5 quote), cancel the resting order (unlocks the 5 quote
synchronously and emits an `Out` event). -/
def c2pre : Except Err Exchange := do
  let s1 ← process_deposit_quote s0 2 10
  let s2 ← process_place_order s1 2 .Buy SCALE 5 0
  process_cancel_order s2 2 1 0

/-- The full C2/C3 sequence: after the cancel, consume the `Out` event
with user 2's balance account provided. -/
def c2trace : Except Err Exchange := do
  let s3 ← c2pre
  Except.ok (process_consume_events s3 [2])

/-- The C10 scenario: maker (user 1) deposits 10 base and rests
`Sell(price = S, qty = 5)`; taker (user 2) deposits 12 quote and sends
`Buy(price = 2S, qty = 5)`, which locks `5 * 2S / S = 10` quote and fully
fills against the maker at the maker's price; the fill event is then
consumed with both balance accounts provided, unlocking only
`5 * S / S = 5` quote from the taker. -/
def c10trace : Except Err Exchange := do
  let s1 ← process_deposit_base s0 1 10
  let s2 ← process_deposit_quote s1 2 12
  let s3 ← process_place_order s2 1 .Sell SCALE 5 0
  let s4 ← process_place_order s3 2 .Buy (2 * SCALE) 5 0
  Except.ok (process_consume_events s4 [1, 2])

end Clob

namespace Clob

/-! ## Arithmetic and store helper lemmas -/

theorem wadd_eq (a b : Nat) (h : a + b < U64) : wadd a b = a + b := by
  simp [wadd, Nat.mod_eq_of_lt h]

theorem wsub_eq (a b : Nat) (hba : b ≤ a) (ha : a < U64) : wsub a b = a - b := by
  have hb : b < U64 := lt_of_le_of_lt hba ha
  simp only [wsub, Nat.mod_eq_of_lt ha, Nat.mod_eq_of_lt hb]
  rw [show a + U64 - b = a - b + U64 by omega, Nat.add_mod_right,
    Nat.mod_eq_of_lt (by omega)]

theorem wmul_eq (a b : Nat) (h : a * b < U64) : wmul a b = a * b := by
  simp [wmul, Nat.mod_eq_of_lt h]

theorem getBalance_updateBalance_map (bs : List UserBalance) (u v : Nat)
    (f : UserBalance → UserBalance) (g : UserBalance → Nat)
    (howner : ∀ b, (f b).owner = b.owner)
    (hg : ∀ b, g (f b) = g b) :
    (getBalance (updateBalance bs u f) v).map g = (getBalance bs v).map g := by
  induction bs with
  | nil => rfl
  | cons b tl ih =>
    simp only [getBalance, updateBalance, List.map_cons, List.find?_cons] at *
    by_cases hb : b.owner == u
    · simp only [hb, if_true]
      by_cases hv : b.owner == v
      · have hfv : ((f b).owner == v) = true := by rw [howner]; exact hv
        simp [hfv, hv, hg]
      · have hfv : ((f b).owner == v) = false := by rw [howner]; simpa using hv
        simp only [hfv, hv]
        simpa using ih
    · simp only [hb, if_false]
      by_cases hv : b.owner == v
      · simp [hv]
      · simp only [hv, Bool.false_eq_true, if_false, cond_false]
        simpa using ih

theorem getBalance_updateBalance_found (bs : List UserBalance) (u : Nat)
    (ub : UserBalance) (f : UserBalance → UserBalance)
    (hfind : getBalance bs u = some ub)
    (howner : ∀ b, (f b).owner = b.owner) :
    getBalance (updateBalance bs u f) u = some (f ub) := by
  induction bs with
  | nil => simp [getBalance] at hfind
  | cons b tl ih =>
    simp only [getBalance, updateBalance, List.map_cons, List.find?_cons] at *
    by_cases hb : b.owner == u
    · simp only [hb, cond_true] at hfind
      have hfb : ((f b).owner == u) = true := by rw [howner]; exact hb
      simp only [hb, if_true, hfb, cond_true]
      injection hfind with h
      rw [h]
    · simp only [hb, cond_false] at hfind
      simp only [hb, Bool.false_eq_true, if_false, cond_false]
      exact ih hfind

theorem getWallet_updateWallet_found (ws : List Wallet) (u : Nat)
    (wa : Wallet) (f : Wallet → Wallet)
    (hfind : getWallet ws u = some wa)
    (howner : ∀ w, (f w).owner = w.owner) :
    getWallet (updateWallet ws u f) u = some (f wa) := by
  induction ws with
  | nil => simp [getWallet] at hfind
  | cons w tl ih =>
    simp only [getWallet, updateWallet, List.map_cons, List.find?_cons] at *
    by_cases hb : w.owner == u
    · simp only [hb, cond_true] at hfind
      have hfb : ((f w).owner == u) = true := by rw [howner]; exact hb
      simp only [hb, if_true, hfb, cond_true]
      injection hfind with h
      rw [h]
    · simp only [hb, cond_false] at hfind
      simp only [hb, Bool.false_eq_true, if_false, cond_false]
      exact ih hfind

end Clob

namespace Clob

/-! ## C1: queue state after ConsumeEvents -/

/-- A concrete distinct fill event for the C1 queue. -/
def c1Event (i : Nat) : Event :=
  { event_type := .Fill, maker := 1, taker := 2, maker_order_id := i,
    quantity := 1, price := SCALE, timestamp := 0, side := .Buy }

/-- A market whose queue holds 8 unconsumed fill events. -/
def s8 : Exchange :=
  { s0 with events := { emptyEvents with
      events := (List.range 8).map c1Event
      count := 8
      seq_num := 8
      events_to_process := 8 } }

/-- C1: on a queue of 8 unconsumed events one `ConsumeEvents` invocation
consumes `k = 7` events and decrements `events_to_process` to 1, but the
events array is left exactly as it was: element `[7]` is not moved down to
`[0]` — slot 0 still holds the first, already-consumed event (which the
next invocation will therefore re-process), contradicting the claimed
left-shift compaction. -/
theorem consume_events_queue_not_compacted :
    (process_consume_events s8 []).events.events_to_process = 1 ∧
    (process_consume_events s8 []).events.events = s8.events.events ∧
    (process_consume_events s8 []).events.events.head? = some (c1Event 0) ∧
    c1Event 0 ≠ c1Event 7 := by
  refine ⟨by decide, rfl, by decide, by decide⟩

end Clob

namespace Clob

/-! ## C2 and C3: consuming an Out event after a cancel -/

/-- C2: after `deposit 10 quote; place Buy(S, 5); cancel`, user 2's
`locked_quote_balance` is 0 (the cancel already unlocked synchronously).
Consuming the resulting `Out` event is not a no-op: the unconditional
`u64` subtraction wraps, leaving `locked_quote_balance = 2^64 - 5`. -/
theorem out_event_consumption_not_noop :
    (c2pre.toOption.map
      (fun s => (getBalance s.balances 2).map (fun b => b.locked_quote_balance)))
      = some (some 0) ∧
    (c2trace.toOption.map
      (fun s => (getBalance s.balances 2).map (fun b => b.locked_quote_balance)))
      = some (some (U64 - 5)) ∧
    U64 - 5 ≠ 0 := by
  refine ⟨by decide, by decide, by decide⟩

/-- C3: a sequence of valid operations (deposit, place, cancel, consume)
drives the `locked_quote_balance` bucket through the `u64` subtraction
`0 - 5`, whose wrapped result `wsub 0 5 = 2^64 - 5` witnesses that the
bucket went negative (the exact integer difference `0 - 5` is below
zero). -/
theorem bucket_underflow_reachable :
    (c2trace.toOption.map
      (fun s => (getBalance s.balances 2).map (fun b => b.locked_quote_balance)))
      = some (some (wsub 0 5)) ∧
    wsub 0 5 = U64 - 5 ∧
    ((0 : Int) - 5 < 0) := by
  refine ⟨by decide, by decide, by decide⟩

end Clob

namespace Clob

/-! ## C9: settlement -/

/-- C9: `SettleBalance` moves `pending_base` (when positive) and
`pending_quote` (when positive) from the vaults to the user's wallet and
zeroes the transferred buckets; with both buckets zero it succeeds as an
exact no-op; and a second call right after a successful one leaves the
state unchanged, so two consecutive calls equal one. -/
theorem settle_balance_transfers_and_idempotent :
    ∀ (s : Exchange) (u : Nat) (ub : UserBalance) (w : Wallet),
    getBalance s.balances u = some ub →
    getWallet s.wallets u = some w →
    ub.pending_base_balance ≤ s.base_vault →
    ub.pending_quote_balance ≤ s.quote_vault →
    w.base + ub.pending_base_balance < U64 →
    w.quote + ub.pending_quote_balance < U64 →
    ∃ s', process_settle_balance s u = Except.ok s' ∧
      getBalance s'.balances u =
        some { ub with pending_base_balance := 0, pending_quote_balance := 0 } ∧
      getWallet s'.wallets u =
        some { w with base := w.base + ub.pending_base_balance,
                      quote := w.quote + ub.pending_quote_balance } ∧
      s'.base_vault = s.base_vault - ub.pending_base_balance ∧
      s'.quote_vault = s.quote_vault - ub.pending_quote_balance ∧
      (ub.pending_base_balance = 0 ∧ ub.pending_quote_balance = 0 → s' = s) ∧
      process_settle_balance s' u = Except.ok s' := by
  intro s u ub w h1 h2 hvb hvq hwb hwq
  by_cases hpb : 0 < ub.pending_base_balance <;>
    by_cases hpq : 0 < ub.pending_quote_balance
  all_goals
    simp only [process_settle_balance, h1, h2, bind, Except.bind, hpb, hpq,
      not_true, not_false_iff, and_true, true_and, and_false, false_and,
      if_true, if_false, not_lt.mpr hvb, not_lt.mpr hvq, Nat.not_lt_zero,
      not_true_eq_false, not_false_eq_true, iff_false, iff_true]
  -- both pending buckets positive
  · refine ⟨_, rfl, ?_, ?_, by dsimp only, by dsimp only, by omega, ?_⟩
    · dsimp only
      rw [getBalance_updateBalance_found s.balances u ub _ h1]
      exact fun b => rfl
    · dsimp only
      rw [getWallet_updateWallet_found s.wallets u w _ h2]
      · simp [wadd_eq _ _ hwb, wadd_eq _ _ hwq]
      · exact fun x => rfl
    · dsimp only
      rw [getBalance_updateBalance_found s.balances u ub _ h1]
      · simp
      · exact fun b => rfl
  -- only pending base positive
  · have hq0 : ub.pending_quote_balance = 0 := by omega
    refine ⟨_, rfl, ?_, ?_, by dsimp only, by dsimp only; omega, by omega, ?_⟩
    · dsimp only
      rw [getBalance_updateBalance_found s.balances u ub _ h1]
      · simp [hq0]
      · exact fun b => rfl
    · dsimp only
      rw [getWallet_updateWallet_found s.wallets u w _ h2]
      · simp [wadd_eq _ _ hwb, hq0]
      · exact fun x => rfl
    · dsimp only
      rw [getBalance_updateBalance_found s.balances u ub _ h1]
      · simp [hq0]
      · exact fun b => rfl
  -- only pending quote positive
  · have hb0 : ub.pending_base_balance = 0 := by omega
    refine ⟨_, rfl, ?_, ?_, by dsimp only; omega, by dsimp only, by omega, ?_⟩
    · dsimp only
      rw [getBalance_updateBalance_found s.balances u ub _ h1]
      · simp [hb0]
      · exact fun b => rfl
    · dsimp only
      rw [getWallet_updateWallet_found s.wallets u w _ h2]
      · simp [wadd_eq _ _ hwq, hb0]
      · exact fun x => rfl
    · dsimp only
      rw [getBalance_updateBalance_found s.balances u ub _ h1]
      · simp [hb0]
      · exact fun b => rfl
  -- both pending buckets zero: exact no-op
  · have hb0 : ub.pending_base_balance = 0 := by omega
    have hq0 : ub.pending_quote_balance = 0 := by omega
    refine ⟨s, rfl, ?_, ?_, by omega, by omega, fun _ => rfl, ?_⟩
    · rw [h1]
      cases ub
      simp_all
    · rw [h2]
      cases w
      simp_all
    · simp only [process_settle_balance, h1, h2, bind, Except.bind, hpb, hpq,
        not_true, not_false_iff, and_true, true_and, if_true,
        not_false_eq_true]

end Clob

namespace Clob

/-- A concrete user-balance with both pending buckets positive. -/
def c9bal : UserBalance :=
  { owner := 3, market := 5, available_base_balance := 0, available_quote_balance := 0,
    locked_base_balance := 0, locked_quote_balance := 0,
    pending_base_balance := 4, pending_quote_balance := 6 }

/-- A concrete wallet for the settlement witness. -/
def c9wal : Wallet := { owner := 3, base := 1, quote := 2 }

/-- A concrete market state with funded vaults for the settlement witness. -/
def c9state : Exchange :=
  { s0 with balances := [c9bal], wallets := [c9wal], base_vault := 10, quote_vault := 10 }

/-- Witness for C9 at a concrete input. -/
theorem settle_balance_witness :
    ∃ s', process_settle_balance c9state 3 = Except.ok s' ∧
      getBalance s'.balances 3 =
        some { c9bal with pending_base_balance := 0, pending_quote_balance := 0 } ∧
      getWallet s'.wallets 3 =
        some { c9wal with base := c9wal.base + c9bal.pending_base_balance,
                          quote := c9wal.quote + c9bal.pending_quote_balance } ∧
      s'.base_vault = c9state.base_vault - c9bal.pending_base_balance ∧
      s'.quote_vault = c9state.quote_vault - c9bal.pending_quote_balance ∧
      (c9bal.pending_base_balance = 0 ∧ c9bal.pending_quote_balance = 0 → s' = c9state) ∧
      process_settle_balance s' 3 = Except.ok s' :=
  settle_balance_transfers_and_idempotent c9state 3 c9bal c9wal rfl rfl
    (by decide) (by decide) (by decide) (by decide)

end Clob

namespace Clob

/-! ## C7: collateral check and lock on placement -/

theorem place_order_ok_balances (s : Exchange) (u : Nat) (side : Side)
    (price quantity : Nat) (ts : Int) (s' : Exchange)
    (h : process_place_order s u side price quantity ts = Except.ok s') :
    s'.balances = updateBalance s.balances u (fun b => { b with
      available_base_balance :=
        wsub b.available_base_balance (if side = Side.Sell then quantity else 0)
      locked_base_balance :=
        wadd b.locked_base_balance (if side = Side.Sell then quantity else 0)
      available_quote_balance :=
        wsub b.available_quote_balance (if side = Side.Buy then wmul quantity price / SCALE else 0)
      locked_quote_balance :=
        wadd b.locked_quote_balance (if side = Side.Buy then wmul quantity price / SCALE else 0) }) := by
  simp only [process_place_order] at h
  cases hb : getBalance s.balances u with
  | none => rw [hb] at h; simp [bind, Except.bind] at h
  | some ub =>
  rw [hb] at h
  cases hw : getWallet s.wallets u with
  | none => rw [hw] at h; simp [bind, Except.bind] at h
  | some w =>
  rw [hw] at h
  simp only [bind, Except.bind] at h
  cases side
  · simp only [reduceCtorEq, if_false, if_true, reduceIte] at h ⊢
    split at h
    · exact Except.noConfusion h
    · split at h
      · exact Except.noConfusion h
      · split at h
        · exact Except.noConfusion h
        · split at h
          · split at h
            · exact Except.noConfusion h
            · injection h with h2
              rw [← h2]
          · injection h with h2
            rw [← h2]
  · simp only [reduceCtorEq, if_false, if_true, reduceIte] at h ⊢
    split at h
    · exact Except.noConfusion h
    · split at h
      · exact Except.noConfusion h
      · split at h
        · exact Except.noConfusion h
        · split at h
          · split at h
            · exact Except.noConfusion h
            · injection h with h2
              rw [← h2]
          · injection h with h2
            rw [← h2]

end Clob

namespace Clob

/-- C7: `PlaceOrder` requires collateral `required_base = quantity` on a
Sell and `required_quote = quantity * price / 10^9` on a Buy; an
insufficient available bucket fails `InsufficientFunds` with no state
change, and otherwise the available bucket is debited and the locked
bucket credited by exactly those amounts (the matching loop never touches
the taker's balance account, so the committed balance shows exactly this
debit and credit). -/
theorem place_order_requires_and_locks_collateral :
    ∀ (s : Exchange) (u : Nat) (side : Side) (price quantity : Nat) (ts : Int)
      (ub : UserBalance),
    getBalance s.balances u = some ub →
    quantity * price < U64 →
    ub.available_base_balance < U64 →
    ub.available_quote_balance < U64 →
    ub.locked_base_balance + quantity < U64 →
    ub.locked_quote_balance + quantity * price / SCALE < U64 →
    ((ub.available_base_balance < (if side = Side.Sell then quantity else 0) ∨
      ub.available_quote_balance < (if side = Side.Buy then quantity * price / SCALE else 0)) →
      ∀ w, getWallet s.wallets u = some w →
      process_place_order s u side price quantity ts = Except.error Err.InsufficientFunds ∧
      runPlaceOrder s u side price quantity ts = s) ∧
    (((if side = Side.Sell then quantity else 0) ≤ ub.available_base_balance) →
     ((if side = Side.Buy then quantity * price / SCALE else 0) ≤ ub.available_quote_balance) →
      ∀ s', process_place_order s u side price quantity ts = Except.ok s' →
        getBalance s'.balances u = some { ub with
          available_base_balance :=
            ub.available_base_balance - (if side = Side.Sell then quantity else 0)
          locked_base_balance :=
            ub.locked_base_balance + (if side = Side.Sell then quantity else 0)
          available_quote_balance :=
            ub.available_quote_balance - (if side = Side.Buy then quantity * price / SCALE else 0)
          locked_quote_balance :=
            ub.locked_quote_balance + (if side = Side.Buy then quantity * price / SCALE else 0) }) := by
  intro s u side price quantity ts ub hb hqp havb havq hlb hlq
  constructor
  · intro hf w hw
    have herr : process_place_order s u side price quantity ts =
        Except.error Err.InsufficientFunds := by
      simp only [process_place_order, hb, hw, bind, Except.bind, wmul_eq _ _ hqp]
      rw [if_pos hf]
    exact ⟨herr, by simp [runPlaceOrder, commit, herr]⟩
  · intro h1 h2 s' hok
    have hbal := place_order_ok_balances s u side price quantity ts s' hok
    rw [hbal]
    rw [getBalance_updateBalance_found s.balances u ub _ hb]
    · have hlq2 : ub.locked_quote_balance < U64 :=
        lt_of_le_of_lt (Nat.le_add_right _ _) hlq
      cases side
      · simp only [reduceCtorEq, if_false, if_true, reduceIte] at h1 h2 ⊢
        rw [wmul_eq _ _ hqp]
        rw [wsub_eq _ _ (by omega) havb, wsub_eq _ _ h2 havq,
          wadd_eq _ _ (by omega), wadd_eq _ _ hlq]
      · simp only [reduceCtorEq, if_false, if_true, reduceIte] at h1 h2 ⊢
        rw [wsub_eq _ _ h1 havb, wsub_eq _ _ (by omega) havq,
          wadd_eq _ _ hlb, wadd_eq _ _ (by omega)]
    · exact fun b => rfl

end Clob

namespace Clob

/-- Concrete balance for the C7 witness: 10 available quote. -/
def c7bal : UserBalance := ⟨2, 5, 0, 10, 0, 0, 0, 0⟩

/-- Market with user 2 funded with 10 available quote. -/
def c7state : Exchange := { s0 with balances := [c7bal] }

/-- Concrete balance short of collateral: 3 available quote. -/
def c7lowbal : UserBalance := ⟨2, 5, 0, 3, 0, 0, 0, 0⟩

/-- Market where user 2 cannot afford a 5-quote buy. -/
def c7low : Exchange := { s0 with balances := [c7lowbal] }

/-- Witness for C7: `Buy(price = S, qty = 5)` needs 5 quote; with 3
available it fails `InsufficientFunds` leaving the state unchanged, and
with 10 available it debits available quote and credits locked quote by
exactly 5. -/
theorem place_order_collateral_witness :
    (process_place_order c7low 2 Side.Buy SCALE 5 0 = Except.error Err.InsufficientFunds ∧
     runPlaceOrder c7low 2 Side.Buy SCALE 5 0 = c7low) ∧
    getBalance (runPlaceOrder c7state 2 Side.Buy SCALE 5 0).balances 2 =
      some ⟨2, 5, 0, 5, 0, 5, 0, 0⟩ :=
  ⟨(place_order_requires_and_locks_collateral c7low 2 Side.Buy SCALE 5 0 c7lowbal rfl
      (by decide) (by decide) (by decide) (by decide) (by decide)).1
      (by decide) ⟨2, 0, 100⟩ rfl,
   (place_order_requires_and_locks_collateral c7state 2 Side.Buy SCALE 5 0 c7bal rfl
      (by decide) (by decide) (by decide) (by decide) (by decide)).2
      (by decide) (by decide) _ rfl⟩

end Clob

namespace Clob

/-! ## C4: all-or-nothing placement -/

/-- A book-side order used to fill the bids to capacity. -/
def fillerOrder : Order := ⟨7, 3, 5, .Buy, 1, 1, 0, 0⟩

/-- Market whose bids already hold `MAX_ORDERS` orders, with user 2 funded:
the funds check and the collateral transfer succeed in program order and
the failure arises only when resting the residual. -/
def c4book : Exchange :=
  { s0 with
    bids := { market := 5, side := .Buy, orders := List.replicate 64 fillerOrder, active_orders_count := 64 }
    balances := [⟨2, 5, 0, 10, 0, 0, 0, 0⟩] }

/-- Market whose event queue already holds `MAX_EVENTS` events and whose
asks hold a crossing maker: the funds check and the collateral transfer
succeed in program order and the failure arises only when appending the
fill event. -/
def c4queue : Exchange :=
  { s0 with
    asks := { market := 5, side := .Sell, orders := [⟨9, 1, 5, .Sell, SCALE, 5, 0, 0⟩], active_orders_count := 1 }
    events := { emptyEvents with events := List.replicate 100 (c1Event 0), count := 100, seq_num := 100, events_to_process := 100 }
    balances := [⟨2, 5, 0, 10, 0, 0, 0, 0⟩] }

/-- C4: any failing `PlaceOrder` transaction leaves every record unchanged
(the code serializes no account before the last fallible step and the host
rolls back the collateral transfer), and both late failure modes are
reachable after the collateral transfer in program order: `BookFull` when
resting the residual on a full book, `QueueFull` when appending a fill
event to a full queue. -/
theorem place_order_all_or_nothing :
    (∀ (s : Exchange) (u : Nat) (side : Side) (price quantity : Nat) (ts : Int) (e : Err),
      process_place_order s u side price quantity ts = Except.error e →
      runPlaceOrder s u side price quantity ts = s) ∧
    process_place_order c4book 2 Side.Buy SCALE 5 0 = Except.error Err.BookFull ∧
    process_place_order c4queue 2 Side.Buy SCALE 5 0 = Except.error Err.QueueFull := by
  refine ⟨?_, rfl, rfl⟩
  intro s u side price quantity ts e h
  simp [runPlaceOrder, commit, h]

/-- Witness for C4 at the two concrete failing inputs. -/
theorem place_order_all_or_nothing_witness :
    runPlaceOrder c4book 2 Side.Buy SCALE 5 0 = c4book ∧
    runPlaceOrder c4queue 2 Side.Buy SCALE 5 0 = c4queue :=
  ⟨place_order_all_or_nothing.1 c4book 2 Side.Buy SCALE 5 0 Err.BookFull
      place_order_all_or_nothing.2.1,
   place_order_all_or_nothing.1 c4queue 2 Side.Buy SCALE 5 0 Err.QueueFull
      place_order_all_or_nothing.2.2⟩

end Clob

namespace Clob

/-! ## C5: removal compaction -/

/-- Three resting bids of user 2 for the compaction counterexample. -/
def oA : Order := ⟨1, 2, 5, .Buy, SCALE, 1, 0, 0⟩

def oB : Order := ⟨2, 2, 5, .Buy, SCALE, 1, 0, 0⟩

def oC : Order := ⟨3, 2, 5, .Buy, SCALE, 1, 0, 0⟩

/-- Market whose bids are `[oA, oB, oC]` with matching locked quote. -/
def c5state : Exchange :=
  { s0 with
    bids := { market := 5, side := .Buy, orders := [oA, oB, oC], active_orders_count := 3 }
    balances := [⟨2, 5, 0, 0, 0, 3, 0, 0⟩] }

/-- C5 counterexample: cancelling the order in slot 0 of `[oA, oB, oC]`
leaves `[oB, oC]` — the subsequent orders shift left.  Swap-with-tail
compaction would instead move the tail order into the removed slot,
producing `[oC, oB]`; the two results differ, so the claimed removal
scheme is not the implemented one. -/
theorem cancel_not_swap_with_tail :
    (match process_cancel_order c5state 2 1 0 with
      | .ok s' => s'.bids.orders
      | .error _ => []) = [oB, oC] ∧ ([oB, oC] : List Order) ≠ [oC, oB] := by
  exact ⟨rfl, by decide⟩

/-- Orders kept by the removal pass are the unmarked ones in their
original relative order. -/
theorem kept_sublist (l : List (Order × Bool)) :
    ((l.filter (fun p => !p.2)).map Prod.fst).Sublist (l.map Prod.fst) :=
  (List.filter_sublist l).map Prod.fst

/-- The matching loop updates maker orders strictly in place: the result
has the same `order_id`/`owner` sequence as the scanned book. -/
theorem matching_loop_ids (side : Side) (price taker : Nat) (ts : Int) :
    ∀ (orders : List Order) (rem : Nat) (ev : MarketEvents)
      (pairs : List (Order × Bool)) (rem2 : Nat) (ev2 : MarketEvents),
    matching_loop side price taker ts orders rem ev = Except.ok (pairs, rem2, ev2) →
    pairs.map (fun p => (p.1.order_id, p.1.owner)) =
      orders.map (fun o => (o.order_id, o.owner)) := by
  intro orders
  induction orders with
  | nil =>
    intro rem ev pairs rem2 ev2 h
    simp only [matching_loop] at h
    injection h with h2
    simp only [Prod.mk.injEq] at h2
    obtain ⟨h3, _, _⟩ := h2
    subst h3
    rfl
  | cons o rest ih =>
    intro rem ev pairs rem2 ev2 h
    simp only [matching_loop, bind, Except.bind] at h
    by_cases hr : rem = 0
    · rw [if_pos hr] at h
      injection h with h2
      simp only [Prod.mk.injEq] at h2
      obtain ⟨h3, _, _⟩ := h2
      subst h3
      simp [List.map_map]
    · rw [if_neg hr] at h
      split at h
      · cases ha : add_event ev
          { event_type := .Fill, maker := o.owner, taker := taker,
            maker_order_id := o.order_id,
            quantity := min rem (wsub o.quantity o.filled_quantity),
            price := o.price, timestamp := ts, side := side } with
        | error e => rw [ha] at h; exact Except.noConfusion h
        | ok evq =>
          rw [ha] at h
          dsimp only at h
          cases hm : matching_loop side price taker ts rest
              (wsub rem (min rem (wsub o.quantity o.filled_quantity))) evq with
          | error e => rw [hm] at h; exact Except.noConfusion h
          | ok v =>
            rw [hm] at h
            obtain ⟨p2, r2, e2⟩ := v
            dsimp only at h
            injection h with h2
            simp only [Prod.mk.injEq] at h2
            obtain ⟨h3, _, _⟩ := h2
            subst h3
            simp only [List.map_cons]
            exact congrArg _ (ih _ _ _ _ _ hm)
      · cases hm : matching_loop side price taker ts rest rem ev with
        | error e => rw [hm] at h; exact Except.noConfusion h
        | ok v =>
          rw [hm] at h
          obtain ⟨p2, r2, e2⟩ := v
          dsimp only at h
          injection h with h2
          simp only [Prod.mk.injEq] at h2
          obtain ⟨h3, _, _⟩ := h2
          subst h3
          simp only [List.map_cons]
          exact congrArg _ (ih _ _ _ _ _ hm)

/-- C5 (amended): removal of a resting order — by cancellation or by full
fill during matching — keeps the remaining orders in their original
relative order (left-shift compaction over the shrinking vector), rather
than moving the tail order into the removed slot: a successful cancel
leaves each book a sublist of itself, and the matching loop updates
orders strictly in place (identical `order_id`/`owner` sequence) so the
kept orders form a sublist of the in-place-updated book. -/
theorem removal_preserves_relative_order :
    (∀ (s : Exchange) (u id : Nat) (ts : Int) (s' : Exchange),
      process_cancel_order s u id ts = Except.ok s' →
      s'.bids.orders.Sublist s.bids.orders ∧ s'.asks.orders.Sublist s.asks.orders) ∧
    (∀ (side : Side) (price taker : Nat) (ts : Int) (orders : List Order)
       (rem : Nat) (ev : MarketEvents) (pairs : List (Order × Bool)) (rem2 : Nat)
       (ev2 : MarketEvents),
      matching_loop side price taker ts orders rem ev = Except.ok (pairs, rem2, ev2) →
      pairs.map (fun p => (p.1.order_id, p.1.owner)) =
        orders.map (fun o => (o.order_id, o.owner)) ∧
      ((pairs.filter (fun p => !p.2)).map Prod.fst).Sublist (pairs.map Prod.fst)) := by
  constructor
  · intro s u id ts s' h
    simp only [process_cancel_order, bind, Except.bind] at h
    cases hb : getBalance s.balances u with
    | none => rw [hb] at h; exact Except.noConfusion h
    | some ub =>
      rw [hb] at h
      dsimp only at h
      split at h
      · split at h
        · exact Except.noConfusion h
        · injection h with h2
          rw [← h2]
          exact ⟨List.filter_sublist _, List.Sublist.refl _⟩
      · split at h
        · split at h
          · exact Except.noConfusion h
          · injection h with h2
            rw [← h2]
            exact ⟨List.Sublist.refl _, List.filter_sublist _⟩
        · exact Except.noConfusion h
  · intro side price taker ts orders rem ev pairs rem2 ev2 h
    exact ⟨matching_loop_ids side price taker ts orders rem ev pairs rem2 ev2 h,
      kept_sublist pairs⟩

end Clob

namespace Clob

/-- A crossing resting ask for the matching-loop witness. -/
def c5maker : Order := ⟨9, 1, 5, .Sell, SCALE, 5, 0, 0⟩

/-- Result pairs of matching `Buy(S, 5)` against `[c5maker]`. -/
def c5mlPairs : List (Order × Bool) := [(⟨9, 1, 5, .Sell, SCALE, 5, 5, 0⟩, true)]

/-- Resulting event queue of that match. -/
def c5mlEv : MarketEvents :=
  { market := 5, head := 0, count := 1, seq_num := 1, events_to_process := 1,
    events := [⟨.Fill, 1, 2, 9, 5, SCALE, 0, .Buy⟩] }

/-- Witness for C5's amended theorem at concrete inputs. -/
theorem removal_order_witness :
    ((runCancelOrder c5state 2 1 0).bids.orders.Sublist c5state.bids.orders ∧
     (runCancelOrder c5state 2 1 0).asks.orders.Sublist c5state.asks.orders) ∧
    (c5mlPairs.map (fun p => (p.1.order_id, p.1.owner)) =
       [c5maker].map (fun o => (o.order_id, o.owner)) ∧
     ((c5mlPairs.filter (fun p => !p.2)).map Prod.fst).Sublist (c5mlPairs.map Prod.fst)) :=
  ⟨removal_preserves_relative_order.1 c5state 2 1 0 (runCancelOrder c5state 2 1 0) rfl,
   removal_preserves_relative_order.2 Side.Buy SCALE 2 0 [c5maker] 5 emptyEvents
     c5mlPairs 0 c5mlEv rfl⟩

end Clob

namespace Clob

/-! ## C6: the matching scan against its specification -/

/-- Specification-side matching scan, stated from the claim's words
(spec §4.3) with exact natural-number arithmetic: the opposite book is
scanned from index 0 upward; a taker Buy fills against a resting ask `m`
iff `taker_price ≥ m.price`, a taker Sell against a resting bid `m` iff
`taker_price ≤ m.price`; each fill's quantity is
`min(remaining_taker, m.quantity - m.filled_quantity)`, and it increments
`m.filled_quantity` and decrements `remaining_taker` by that amount. -/
def specCrosses (side : Side) (price : Nat) (m : Order) : Bool :=
  match side with
  | Side.Buy => decide (price ≥ m.price)
  | Side.Sell => decide (price ≤ m.price)

def specMatch (side : Side) (price : Nat) : List Order → Nat → List (Order × Nat) × Nat
  | [], rem => ([], rem)
  | m :: rest, rem =>
    let f := if specCrosses side price m then min rem (m.quantity - m.filled_quantity) else 0
    let m' := { m with filled_quantity := m.filled_quantity + f }
    let tail := specMatch side price rest (rem - f)
    ((m', f) :: tail.1, tail.2)

theorem specMatch_zero (side : Side) (price : Nat) :
    ∀ l : List Order, specMatch side price l 0 = (l.map (fun m => (m, 0)), 0) := by
  intro l
  induction l with
  | nil => rfl
  | cons m rest ih =>
    simp only [specMatch, Nat.zero_min, ite_self, Nat.add_zero, Nat.sub_zero, ih,
      List.map_cons]

end Clob

namespace Clob

/-- C6: the implementation's matching loop refines the specification scan:
for in-range books (`filled ≤ quantity < 2^64`) and taker quantity, a
successful pass produces exactly the orders and final remaining quantity
of `specMatch` — fills happen iff the price crosses, each of quantity
`min(remaining, quantity - filled_quantity)`, added to the maker's
`filled_quantity` and subtracted from the remaining taker quantity. -/
theorem matching_loop_implements_spec :
    ∀ (side : Side) (price taker : Nat) (ts : Int) (orders : List Order)
      (rem : Nat) (ev : MarketEvents) (pairs : List (Order × Bool)) (rem2 : Nat)
      (ev2 : MarketEvents),
    (∀ o ∈ orders, o.filled_quantity ≤ o.quantity ∧ o.quantity < U64) →
    rem < U64 →
    matching_loop side price taker ts orders rem ev = Except.ok (pairs, rem2, ev2) →
    pairs.map Prod.fst = (specMatch side price orders rem).1.map Prod.fst ∧
    rem2 = (specMatch side price orders rem).2 := by
  intro side price taker ts orders
  induction orders with
  | nil =>
    intro rem ev pairs rem2 ev2 hbound hrem h
    simp only [matching_loop] at h
    injection h with h2
    simp only [Prod.mk.injEq] at h2
    obtain ⟨h3, h4, h5⟩ := h2
    subst h3
    subst h4
    exact ⟨rfl, rfl⟩
  | cons m rest ih =>
    intro rem ev pairs rem2 ev2 hbound hrem h
    have hm := hbound m (List.mem_cons_self m rest)
    have hbr : ∀ o ∈ rest, o.filled_quantity ≤ o.quantity ∧ o.quantity < U64 :=
      fun o ho => hbound o (List.mem_cons_of_mem m ho)
    have havail : wsub m.quantity m.filled_quantity = m.quantity - m.filled_quantity :=
      wsub_eq _ _ hm.1 hm.2
    have hcrossb : specCrosses side price m = crosses side price m := by
      cases side <;> rfl
    simp only [matching_loop, bind, Except.bind] at h
    by_cases hr : rem = 0
    · subst hr
      rw [if_pos rfl] at h
      injection h with h2
      simp only [Prod.mk.injEq] at h2
      obtain ⟨h3, h4, h5⟩ := h2
      subst h3
      subst h4
      rw [specMatch_zero]
      exact ⟨by simp [List.map_map], rfl⟩
    · rw [if_neg hr, havail] at h
      rw [wsub_eq rem _ (Nat.min_le_left _ _) hrem] at h
      rw [wadd_eq m.filled_quantity _
        (by have := Nat.min_le_right rem (m.quantity - m.filled_quantity); omega)] at h
      by_cases hcf : crosses side price m ∧ 0 < min rem (m.quantity - m.filled_quantity)
      · rw [if_pos hcf] at h
        cases ha : add_event ev
            { event_type := .Fill, maker := m.owner, taker := taker,
              maker_order_id := m.order_id,
              quantity := min rem (m.quantity - m.filled_quantity),
              price := m.price, timestamp := ts, side := side } with
        | error e => rw [ha] at h; exact Except.noConfusion h
        | ok evq =>
          rw [ha] at h
          dsimp only at h
          cases hrec : matching_loop side price taker ts rest
              (rem - min rem (m.quantity - m.filled_quantity)) evq with
          | error e => rw [hrec] at h; exact Except.noConfusion h
          | ok v =>
            rw [hrec] at h
            obtain ⟨p2, r2, e2⟩ := v
            dsimp only at h
            injection h with h2
            simp only [Prod.mk.injEq] at h2
            obtain ⟨h3, h4, h5⟩ := h2
            subst h3
            subst h4
            have hih := ih (rem - min rem (m.quantity - m.filled_quantity)) evq p2 r2 e2
              hbr (by omega) hrec
            have hc2 : specCrosses side price m = true := by rw [hcrossb]; exact hcf.1
            simp only [specMatch, hc2, if_true, List.map_cons]
            exact ⟨congrArg _ hih.1, hih.2⟩
      · rw [if_neg hcf] at h
        cases hrec : matching_loop side price taker ts rest rem ev with
        | error e => rw [hrec] at h; exact Except.noConfusion h
        | ok v =>
          rw [hrec] at h
          obtain ⟨p2, r2, e2⟩ := v
          dsimp only at h
          injection h with h2
          simp only [Prod.mk.injEq] at h2
          obtain ⟨h3, h4, h5⟩ := h2
          subst h3
          subst h4
          have hih := ih rem ev p2 r2 e2 hbr hrem hrec
          have hf0 : (if specCrosses side price m then
              min rem (m.quantity - m.filled_quantity) else 0) = 0 := by
            rw [hcrossb]
            rcases Classical.em (crosses side price m) with hc | hc
            · rw [if_pos hc]
              rcases Nat.eq_zero_or_pos (min rem (m.quantity - m.filled_quantity)) with h0 | h0
              · exact h0
              · exact absurd ⟨hc, h0⟩ hcf
            · rw [if_neg hc]
          simp only [specMatch, hf0, Nat.add_zero, Nat.sub_zero, List.map_cons]
          exact ⟨congrArg _ hih.1, hih.2⟩

end Clob

namespace Clob

/-- Witness for C6 at a concrete one-maker book. -/
theorem matching_loop_spec_witness :
    c5mlPairs.map Prod.fst = (specMatch Side.Buy SCALE [c5maker] 5).1.map Prod.fst ∧
    (0 : Nat) = (specMatch Side.Buy SCALE [c5maker] 5).2 :=
  matching_loop_implements_spec Side.Buy SCALE 2 0 [c5maker] 5 emptyEvents c5mlPairs 0 c5mlEv
    (by decide) (by decide) rfl

end Clob

namespace Clob

/-! ## C8: cancel round trip -/

theorem matching_loop_no_cross (side : Side) (price taker : Nat) (ts : Int) :
    ∀ (orders : List Order) (rem : Nat) (ev : MarketEvents),
    (∀ o ∈ orders, crosses side price o = false) →
    matching_loop side price taker ts orders rem ev =
      Except.ok (orders.map (fun o => (o, false)), rem, ev) := by
  intro orders
  induction orders with
  | nil => intro rem ev _; rfl
  | cons o rest ih =>
    intro rem ev hnc
    have ho := hnc o (List.mem_cons_self o rest)
    have hrest : ∀ x ∈ rest, crosses side price x = false :=
      fun x hx => hnc x (List.mem_cons_of_mem o hx)
    simp only [matching_loop, bind, Except.bind]
    by_cases hr : rem = 0
    · rw [if_pos hr, hr]
      simp
    · rw [if_neg hr, if_neg (by simp [ho]), ih rem ev hrest]
      simp

theorem find?_append_none {α : Type} (p : α → Bool) (l1 l2 : List α)
    (h : l1.find? p = none) : (l1 ++ l2).find? p = l2.find? p := by
  induction l1 with
  | nil => rfl
  | cons a tl ih =>
    simp only [List.find?_cons, List.cons_append] at *
    cases hp : p a with
    | true => rw [hp] at h; exact Option.noConfusion h
    | false =>
      rw [hp] at h
      simp only [cond_false] at h ⊢
      exact ih h

theorem kept_of_all_false (l : List Order) :
    (((l.map (fun o => (o, false))).filter (fun p => !p.2)).map Prod.fst) = l := by
  induction l with
  | nil => rfl
  | cons o rest ih => simp [ih]

theorem removed_of_all_false (l : List Order) :
    ((l.map (fun o => (o, false))).filter (fun p => p.2)) = [] := by
  induction l with
  | nil => rfl
  | cons o rest ih => simp [ih]

end Clob

namespace Clob

theorem place_order_rests_buy (s : Exchange) (u price quantity : Nat) (ts : Int)
    (ub : UserBalance) (w : Wallet)
    (hb : getBalance s.balances u = some ub)
    (hw : getWallet s.wallets u = some w)
    (hq : 0 < quantity)
    (hqp : quantity * price < U64)
    (hfund : quantity * price / SCALE ≤ ub.available_quote_balance)
    (hwq : quantity * price / SCALE ≤ w.quote)
    (hnc : ∀ o ∈ s.asks.orders, crosses Side.Buy price o = false)
    (hroom : s.bids.orders.length < MAX_ORDERS) :
    process_place_order s u Side.Buy price quantity ts = Except.ok { s with
      market := { next_order_id := wadd s.market.next_order_id 1 }
      bids := { s.bids with
        orders := s.bids.orders ++
          [⟨s.market.next_order_id, u, s.market_key, Side.Buy, price, quantity, 0, ts⟩]
        active_orders_count := wadd s.bids.active_orders_count 1 }
      balances := updateBalance s.balances u (fun b => { b with
        available_base_balance := wsub b.available_base_balance 0
        locked_base_balance := wadd b.locked_base_balance 0
        available_quote_balance := wsub b.available_quote_balance (wmul quantity price / SCALE)
        locked_quote_balance := wadd b.locked_quote_balance (wmul quantity price / SCALE) })
      wallets := updateWallet s.wallets u
        (fun _ => { w with quote := w.quote - wmul quantity price / SCALE })
      quote_vault := wadd s.quote_vault (wmul quantity price / SCALE) } := by
  have hfundw : ¬(ub.available_base_balance < 0 ∨
      ub.available_quote_balance < wmul quantity price / SCALE) := by
    rw [wmul_eq _ _ hqp]
    exact not_or.mpr ⟨Nat.not_lt_zero _, not_lt.mpr hfund⟩
  have hwqw : ¬(w.quote < wmul quantity price / SCALE) := by
    rw [wmul_eq _ _ hqp]
    exact not_lt.mpr hwq
  simp only [process_place_order, hb, hw, bind, Except.bind, reduceCtorEq, reduceIte,
    if_true, if_false]
  rw [if_neg hfundw, if_neg hwqw]
  rw [matching_loop_no_cross Side.Buy price u ts s.asks.orders quantity s.events hnc]
  dsimp only
  rw [if_pos hq]
  simp only [add_order]
  rw [if_neg (not_le.mpr hroom)]
  rw [kept_of_all_false s.asks.orders, removed_of_all_false s.asks.orders]
  rfl

theorem place_order_rests_sell (s : Exchange) (u price quantity : Nat) (ts : Int)
    (ub : UserBalance) (w : Wallet)
    (hb : getBalance s.balances u = some ub)
    (hw : getWallet s.wallets u = some w)
    (hq : 0 < quantity)
    (hfund : quantity ≤ ub.available_base_balance)
    (hwb : quantity ≤ w.base)
    (hnc : ∀ o ∈ s.bids.orders, crosses Side.Sell price o = false)
    (hroom : s.asks.orders.length < MAX_ORDERS) :
    process_place_order s u Side.Sell price quantity ts = Except.ok { s with
      market := { next_order_id := wadd s.market.next_order_id 1 }
      asks := { s.asks with
        orders := s.asks.orders ++
          [⟨s.market.next_order_id, u, s.market_key, Side.Sell, price, quantity, 0, ts⟩]
        active_orders_count := wadd s.asks.active_orders_count 1 }
      balances := updateBalance s.balances u (fun b => { b with
        available_base_balance := wsub b.available_base_balance quantity
        locked_base_balance := wadd b.locked_base_balance quantity
        available_quote_balance := wsub b.available_quote_balance 0
        locked_quote_balance := wadd b.locked_quote_balance 0 })
      wallets := updateWallet s.wallets u
        (fun _ => { w with base := w.base - quantity })
      base_vault := wadd s.base_vault quantity } := by
  have hfundw : ¬(ub.available_base_balance < quantity ∨
      ub.available_quote_balance < 0) :=
    not_or.mpr ⟨not_lt.mpr hfund, Nat.not_lt_zero _⟩
  have hwbw : ¬(w.base < quantity) := not_lt.mpr hwb
  simp only [process_place_order, hb, hw, bind, Except.bind, reduceCtorEq, reduceIte,
    if_true, if_false]
  rw [if_neg hfundw, if_neg hwbw]
  rw [matching_loop_no_cross Side.Sell price u ts s.bids.orders quantity s.events hnc]
  dsimp only
  rw [if_pos hq]
  simp only [add_order]
  rw [if_neg (not_le.mpr hroom)]
  rw [kept_of_all_false s.bids.orders, removed_of_all_false s.bids.orders]
  rfl

end Clob

namespace Clob

theorem cancel_after_rest_buy (s : Exchange) (u price quantity : Nat) (ts ts2 : Int)
    (ub : UserBalance) (w : Wallet)
    (hb : getBalance s.balances u = some ub)
    (hqroom : s.events.events.length < MAX_EVENTS)
    (hfresh1 : ∀ o ∈ s.bids.orders, o.order_id ≠ s.market.next_order_id) :
    process_cancel_order { s with
      market := { next_order_id := wadd s.market.next_order_id 1 }
      bids := { s.bids with
        orders := s.bids.orders ++
          [⟨s.market.next_order_id, u, s.market_key, Side.Buy, price, quantity, 0, ts⟩]
        active_orders_count := wadd s.bids.active_orders_count 1 }
      balances := updateBalance s.balances u (fun b => { b with
        available_base_balance := wsub b.available_base_balance 0
        locked_base_balance := wadd b.locked_base_balance 0
        available_quote_balance := wsub b.available_quote_balance (wmul quantity price / SCALE)
        locked_quote_balance := wadd b.locked_quote_balance (wmul quantity price / SCALE) })
      wallets := updateWallet s.wallets u
        (fun _ => { w with quote := w.quote - wmul quantity price / SCALE })
      quote_vault := wadd s.quote_vault (wmul quantity price / SCALE) }
      u s.market.next_order_id ts2
    = Except.ok { s with
      market := { next_order_id := wadd s.market.next_order_id 1 }
      bids := { s.bids with
        orders := (s.bids.orders ++
            [(⟨s.market.next_order_id, u, s.market_key, Side.Buy, price, quantity, 0, ts⟩ : Order)]).filter
          (fun x => !(x.order_id == s.market.next_order_id && x.owner == u))
        active_orders_count := wsub (wadd s.bids.active_orders_count 1) 1 }
      events := { s.events with
        count := wadd s.events.count 1
        seq_num := wadd s.events.seq_num 1
        events_to_process := wadd s.events.events_to_process 1
        events := s.events.events ++
          [⟨EventType.Out, u, 0, s.market.next_order_id, wsub quantity 0, price, ts2, Side.Buy⟩] }
      balances := updateBalance (updateBalance s.balances u (fun b => { b with
        available_base_balance := wsub b.available_base_balance 0
        locked_base_balance := wadd b.locked_base_balance 0
        available_quote_balance := wsub b.available_quote_balance (wmul quantity price / SCALE)
        locked_quote_balance := wadd b.locked_quote_balance (wmul quantity price / SCALE) })) u
        (fun b => { b with
          locked_quote_balance :=
            wsub b.locked_quote_balance (wmul (wsub quantity 0) price / SCALE)
          available_quote_balance :=
            wadd b.available_quote_balance (wmul (wsub quantity 0) price / SCALE) })
      wallets := updateWallet s.wallets u
        (fun _ => { w with quote := w.quote - wmul quantity price / SCALE })
      quote_vault := wadd s.quote_vault (wmul quantity price / SCALE) } := by
  have hnone : List.find?
      (fun o => o.order_id == s.market.next_order_id && o.owner == u) s.bids.orders = none :=
    List.find?_eq_none.mpr (fun x hx => by simp [hfresh1 x hx])
  simp only [process_cancel_order, bind, Except.bind]
  rw [getBalance_updateBalance_found s.balances u ub _ hb]
  rw [find?_append_none _ _ _ hnone]
  simp only [List.find?_cons, beq_self_eq_true, Bool.and_self, cond_true]
  simp only [add_event]
  rw [if_neg (not_le.mpr hqroom)]
  exact fun b => rfl

theorem cancel_after_rest_sell (s : Exchange) (u price quantity : Nat) (ts ts2 : Int)
    (ub : UserBalance) (w : Wallet)
    (hb : getBalance s.balances u = some ub)
    (hqroom : s.events.events.length < MAX_EVENTS)
    (hfresh1 : ∀ o ∈ s.bids.orders, o.order_id ≠ s.market.next_order_id)
    (hfresh2 : ∀ o ∈ s.asks.orders, o.order_id ≠ s.market.next_order_id) :
    process_cancel_order { s with
      market := { next_order_id := wadd s.market.next_order_id 1 }
      asks := { s.asks with
        orders := s.asks.orders ++
          [⟨s.market.next_order_id, u, s.market_key, Side.Sell, price, quantity, 0, ts⟩]
        active_orders_count := wadd s.asks.active_orders_count 1 }
      balances := updateBalance s.balances u (fun b => { b with
        available_base_balance := wsub b.available_base_balance quantity
        locked_base_balance := wadd b.locked_base_balance quantity
        available_quote_balance := wsub b.available_quote_balance 0
        locked_quote_balance := wadd b.locked_quote_balance 0 })
      wallets := updateWallet s.wallets u
        (fun _ => { w with base := w.base - quantity })
      base_vault := wadd s.base_vault quantity }
      u s.market.next_order_id ts2
    = Except.ok { s with
      market := { next_order_id := wadd s.market.next_order_id 1 }
      asks := { s.asks with
        orders := (s.asks.orders ++
            [(⟨s.market.next_order_id, u, s.market_key, Side.Sell, price, quantity, 0, ts⟩ : Order)]).filter
          (fun x => !(x.order_id == s.market.next_order_id && x.owner == u))
        active_orders_count := wsub (wadd s.asks.active_orders_count 1) 1 }
      events := { s.events with
        count := wadd s.events.count 1
        seq_num := wadd s.events.seq_num 1
        events_to_process := wadd s.events.events_to_process 1
        events := s.events.events ++
          [⟨EventType.Out, u, 0, s.market.next_order_id, wsub quantity 0, price, ts2, Side.Sell⟩] }
      balances := updateBalance (updateBalance s.balances u (fun b => { b with
        available_base_balance := wsub b.available_base_balance quantity
        locked_base_balance := wadd b.locked_base_balance quantity
        available_quote_balance := wsub b.available_quote_balance 0
        locked_quote_balance := wadd b.locked_quote_balance 0 })) u
        (fun b => { b with
          locked_base_balance := wsub b.locked_base_balance (wsub quantity 0)
          available_base_balance := wadd b.available_base_balance (wsub quantity 0) })
      wallets := updateWallet s.wallets u
        (fun _ => { w with base := w.base - quantity })
      base_vault := wadd s.base_vault quantity } := by
  have hnone : List.find?
      (fun o => o.order_id == s.market.next_order_id && o.owner == u) s.bids.orders = none :=
    List.find?_eq_none.mpr (fun x hx => by simp [hfresh1 x hx])
  have hnone2 : List.find?
      (fun o => o.order_id == s.market.next_order_id && o.owner == u) s.asks.orders = none :=
    List.find?_eq_none.mpr (fun x hx => by simp [hfresh2 x hx])
  simp only [process_cancel_order, bind, Except.bind]
  rw [getBalance_updateBalance_found s.balances u ub _ hb]
  rw [hnone]
  dsimp only
  rw [find?_append_none _ _ _ hnone2]
  simp only [List.find?_cons, beq_self_eq_true, Bool.and_self, cond_true]
  simp only [add_event]
  rw [if_neg (not_le.mpr hqroom)]
  exact fun b => rfl

/-- C8: placing an order that rests with no fills and cancelling it by its
fresh id restores the user's balance record exactly (available and locked,
base and quote buckets all return to their pre-place values) and leaves
precisely one extra `Out` event, carrying the full remaining quantity, in
the queue. -/
theorem place_cancel_round_trip :
    ∀ (s : Exchange) (u : Nat) (side : Side) (price quantity : Nat) (ts ts2 : Int)
      (ub : UserBalance) (w : Wallet),
    getBalance s.balances u = some ub →
    getWallet s.wallets u = some w →
    0 < quantity →
    quantity < U64 →
    quantity * price < U64 →
    ub.available_base_balance < U64 →
    ub.available_quote_balance < U64 →
    ub.locked_base_balance + quantity < U64 →
    ub.locked_quote_balance + quantity * price / SCALE < U64 →
    (if side = Side.Sell then quantity else 0) ≤ ub.available_base_balance →
    (if side = Side.Buy then quantity * price / SCALE else 0) ≤ ub.available_quote_balance →
    (if side = Side.Sell then quantity else 0) ≤ w.base →
    (if side = Side.Buy then quantity * price / SCALE else 0) ≤ w.quote →
    (∀ o ∈ (if side = Side.Buy then s.asks.orders else s.bids.orders),
      crosses side price o = false) →
    (if side = Side.Buy then s.bids.orders.length else s.asks.orders.length) < MAX_ORDERS →
    s.events.events.length < MAX_EVENTS →
    (∀ o ∈ s.bids.orders, o.order_id ≠ s.market.next_order_id) →
    (∀ o ∈ s.asks.orders, o.order_id ≠ s.market.next_order_id) →
    ∃ s1 s2,
      process_place_order s u side price quantity ts = Except.ok s1 ∧
      process_cancel_order s1 u s.market.next_order_id ts2 = Except.ok s2 ∧
      getBalance s2.balances u = some ub ∧
      s2.events.events = s.events.events ++
        [{ event_type := .Out, maker := u, taker := 0,
           maker_order_id := s.market.next_order_id, quantity := quantity,
           price := price, timestamp := ts2, side := side }] := by
  intro s u side price quantity ts ts2 ub w hb hw hq hqU hqp havb havq hlb hlq
    hfb hfq hwb hwq hnc hroom hqroom hfresh1 hfresh2
  have e2 : wmul quantity price / SCALE = quantity * price / SCALE := by
    rw [wmul_eq _ _ hqp]
  have e1 : wsub quantity 0 = quantity := wsub_eq _ _ (Nat.zero_le _) hqU
  have hlq2 : ub.locked_quote_balance < U64 :=
    lt_of_le_of_lt (Nat.le_add_right _ _) hlq
  have hlb2 : ub.locked_base_balance < U64 :=
    lt_of_le_of_lt (Nat.le_add_right _ _) hlb
  cases side
  · -- Buy
    simp only [reduceCtorEq, reduceIte, if_true, if_false] at hfb hfq hwb hwq hnc hroom
    refine ⟨_, _,
      place_order_rests_buy s u price quantity ts ub w hb hw hq hqp hfq hwq hnc hroom,
      cancel_after_rest_buy s u price quantity ts ts2 ub w hb hqroom hfresh1, ?_, ?_⟩
    · have hin := getBalance_updateBalance_found s.balances u ub
        (fun b => { b with
          available_base_balance := wsub b.available_base_balance 0
          locked_base_balance := wadd b.locked_base_balance 0
          available_quote_balance := wsub b.available_quote_balance (wmul quantity price / SCALE)
          locked_quote_balance := wadd b.locked_quote_balance (wmul quantity price / SCALE) })
        hb (fun b => rfl)
      have hout := getBalance_updateBalance_found _ u _
        (fun b => { b with
          locked_quote_balance :=
            wsub b.locked_quote_balance (wmul (wsub quantity 0) price / SCALE)
          available_quote_balance :=
            wadd b.available_quote_balance (wmul (wsub quantity 0) price / SCALE) })
        hin (fun b => rfl)
      dsimp only
      rw [hout]
      cases ub with
      | mk o m ab aq lb lq pb pq =>
        dsimp only at *
        simp only [Option.some.injEq, UserBalance.mk.injEq, true_and, and_true]
        refine ⟨?_, ?_, ?_, ?_⟩
        · rw [wsub_eq _ _ (Nat.zero_le _) havb]
          omega
        · rw [e1, e2, wsub_eq _ _ hfq havq,
            wadd_eq _ _ (by rw [Nat.sub_add_cancel hfq]; exact havq),
            Nat.sub_add_cancel hfq]
        · rw [wadd_eq _ _ (by rw [Nat.add_zero]; exact hlb2)]
          omega
        · rw [e1, e2, wadd_eq _ _ hlq,
            wsub_eq _ _ (Nat.le_add_left _ _) hlq, Nat.add_sub_cancel]
    · dsimp only
      rw [e1]
  · -- Sell
    simp only [reduceCtorEq, reduceIte, if_true, if_false] at hfb hfq hwb hwq hnc hroom
    refine ⟨_, _,
      place_order_rests_sell s u price quantity ts ub w hb hw hq hfb hwb hnc hroom,
      cancel_after_rest_sell s u price quantity ts ts2 ub w hb hqroom hfresh1 hfresh2, ?_, ?_⟩
    · have hin := getBalance_updateBalance_found s.balances u ub
        (fun b => { b with
          available_base_balance := wsub b.available_base_balance quantity
          locked_base_balance := wadd b.locked_base_balance quantity
          available_quote_balance := wsub b.available_quote_balance 0
          locked_quote_balance := wadd b.locked_quote_balance 0 })
        hb (fun b => rfl)
      have hout := getBalance_updateBalance_found _ u _
        (fun b => { b with
          locked_base_balance := wsub b.locked_base_balance (wsub quantity 0)
          available_base_balance := wadd b.available_base_balance (wsub quantity 0) })
        hin (fun b => rfl)
      dsimp only
      rw [hout]
      cases ub with
      | mk o m ab aq lb lq pb pq =>
        dsimp only at *
        simp only [Option.some.injEq, UserBalance.mk.injEq, true_and, and_true]
        refine ⟨?_, ?_, ?_, ?_⟩
        · rw [e1, wsub_eq _ _ hfb havb,
            wadd_eq _ _ (by rw [Nat.sub_add_cancel hfb]; exact havb),
            Nat.sub_add_cancel hfb]
        · rw [wsub_eq _ _ (Nat.zero_le _) havq]
          omega
        · rw [e1, wadd_eq _ _ hlb,
            wsub_eq _ _ (Nat.le_add_left _ _) hlb, Nat.add_sub_cancel]
        · rw [wadd_eq _ _ (by rw [Nat.add_zero]; exact hlq2)]
          omega
    · dsimp only
      rw [e1]

end Clob

namespace Clob

/-- Witness for C8 at a concrete market: user 2 places `Buy(S, 5)` on an
empty book and cancels order 1. -/
theorem place_cancel_round_trip_witness :
    ∃ s1 s2,
      process_place_order c7state 2 Side.Buy SCALE 5 0 = Except.ok s1 ∧
      process_cancel_order s1 2 c7state.market.next_order_id 1 = Except.ok s2 ∧
      getBalance s2.balances 2 = some c7bal ∧
      s2.events.events = c7state.events.events ++
        [{ event_type := .Out, maker := 2, taker := 0,
           maker_order_id := c7state.market.next_order_id, quantity := 5,
           price := SCALE, timestamp := 1, side := Side.Buy }] :=
  place_cancel_round_trip c7state 2 Side.Buy SCALE 5 0 1 c7bal ⟨2, 0, 100⟩ rfl rfl
    (by decide) (by decide) (by decide) (by decide) (by decide) (by decide) (by decide)
    (by decide) (by decide) (by decide) (by decide) (by decide) (by decide) (by decide)
    (by decide) (by decide)

end Clob

namespace Clob

/-! ## C10: the taker's over-locked quote is never released -/

/-- The C10 scenario just before consumption: the taker's `Buy(2S, 5)`
locked `5 * 2S / S = 10` quote. -/
def c10pre : Except Err Exchange := do
  let s1 ← process_deposit_base s0 1 10
  let s2 ← process_deposit_quote s1 2 12
  let s3 ← process_place_order s2 1 .Sell SCALE 5 0
  process_place_order s3 2 .Buy (2 * SCALE) 5 0

/-- The state after the C10 scenario's `ConsumeEvents`. -/
def c10state : Exchange :=
  match c10trace with
  | .ok s => s
  | .error _ => s0

/-- Operations available after the scenario (the claim's list:
`ConsumeEvents`, `CancelOrder`, `SettleBalance`), each as a whole
transaction. -/
inductive Op10 where
  | consume (provided : List Nat)
  | cancel (u id : Nat) (ts : Int)
  | settle (u : Nat)

def step10 (s : Exchange) : Op10 → Exchange
  | .consume p => process_consume_events s p
  | .cancel u id ts => runCancelOrder s u id ts
  | .settle u => runSettleBalance s u

def run10 : Exchange → List Op10 → Exchange
  | s, [] => s
  | s, op :: ops => run10 (step10 s op) ops

/-- Invariant of the post-scenario state: both books empty, nothing left
to consume, and the taker's locked quote stuck at 5. -/
def I10 (s : Exchange) : Prop :=
  s.bids.orders = [] ∧ s.asks.orders = [] ∧ s.events.events_to_process = 0 ∧
  (getBalance s.balances 2).map (fun b => b.locked_quote_balance) = some 5

theorem consume_events_etp_zero (s : Exchange) (p : List Nat)
    (h : s.events.events_to_process = 0) : process_consume_events s p = s := by
  obtain ⟨mk, m, b, a, ev, bal, wal, bv, qv⟩ := s
  obtain ⟨evm, evh, evc, evs, evp, evl⟩ := ev
  dsimp only at h
  subst h
  cases evl <;> rfl

theorem cancel_empty_books (s : Exchange) (u id : Nat) (ts : Int)
    (hb : s.bids.orders = []) (ha : s.asks.orders = []) :
    runCancelOrder s u id ts = s := by
  simp only [runCancelOrder, commit, process_cancel_order, bind, Except.bind, hb, ha,
    List.find?_nil]
  cases hg : getBalance s.balances u <;> rfl

theorem settle_ok_shape (s : Exchange) (u : Nat) (s' : Exchange)
    (h : process_settle_balance s u = Except.ok s') :
    s'.bids = s.bids ∧ s'.asks = s.asks ∧ s'.events = s.events ∧
    (s'.balances = s.balances ∨
      ∃ f : UserBalance → UserBalance, s'.balances = updateBalance s.balances u f ∧
        (∀ b, (f b).owner = b.owner) ∧
        (∀ b, (f b).locked_quote_balance = b.locked_quote_balance) ∧
        (∀ b, (f b).available_quote_balance = b.available_quote_balance)) := by
  simp only [process_settle_balance, bind, Except.bind] at h
  cases hg : getBalance s.balances u with
  | none => rw [hg] at h; exact Except.noConfusion h
  | some ub =>
  rw [hg] at h
  dsimp only at h
  split at h
  · injection h with h2
    subst h2
    exact ⟨rfl, rfl, rfl, Or.inl rfl⟩
  · cases hw : getWallet s.wallets u with
    | none => rw [hw] at h; exact Except.noConfusion h
    | some w =>
    rw [hw] at h
    dsimp only at h
    split at h
    · split at h
      · exact Except.noConfusion h
      · split at h
        · split at h
          · exact Except.noConfusion h
          · injection h with h2
            subst h2
            exact ⟨rfl, rfl, rfl, Or.inr ⟨_, rfl, fun b => rfl, fun b => rfl, fun b => rfl⟩⟩
        · injection h with h2
          subst h2
          exact ⟨rfl, rfl, rfl, Or.inr ⟨_, rfl, fun b => rfl, fun b => rfl, fun b => rfl⟩⟩
    · split at h
      · split at h
        · exact Except.noConfusion h
        · injection h with h2
          subst h2
          exact ⟨rfl, rfl, rfl, Or.inr ⟨_, rfl, fun b => rfl, fun b => rfl, fun b => rfl⟩⟩
      · injection h with h2
        subst h2
        exact ⟨rfl, rfl, rfl, Or.inr ⟨_, rfl, fun b => rfl, fun b => rfl, fun b => rfl⟩⟩

theorem step10_preserves (s : Exchange) (op : Op10) (h : I10 s) : I10 (step10 s op) := by
  obtain ⟨h1, h2, h3, h4⟩ := h
  cases op with
  | consume p =>
    simp only [step10]
    rw [consume_events_etp_zero s p h3]
    exact ⟨h1, h2, h3, h4⟩
  | cancel u id ts =>
    simp only [step10]
    rw [cancel_empty_books s u id ts h1 h2]
    exact ⟨h1, h2, h3, h4⟩
  | settle u =>
    simp only [step10, runSettleBalance, commit]
    cases hr : process_settle_balance s u with
    | error e => exact ⟨h1, h2, h3, h4⟩
    | ok s' =>
      obtain ⟨hb, ha, he, hbal⟩ := settle_ok_shape s u s' hr
      refine ⟨by rw [hb]; exact h1, by rw [ha]; exact h2, by rw [he]; exact h3, ?_⟩
      cases hbal with
      | inl hsame => rw [hsame]; exact h4
      | inr hf =>
        obtain ⟨f, hfb, hown, hlock, _⟩ := hf
        rw [hfb, getBalance_updateBalance_map s.balances u 2 f _ hown hlock]
        exact h4

theorem run10_preserves (ops : List Op10) (s : Exchange) (h : I10 s) :
    I10 (run10 s ops) := by
  induction ops generalizing s with
  | nil => exact h
  | cons op rest ih => exact ih (step10 s op) (step10_preserves s op h)

end Clob

namespace Clob

/-- C10: in the concrete scenario — maker rests `Sell(S, 5)`, taker sends
`Buy(2S, 5)` which fully fills at the maker's price — placement locks
`5 * 2S / S = 10` quote, but the fill event carries the maker's price, so
consumption unlocks only `5 * S / S = 5`: the taker's `locked_quote`
remains 5 (> 0), and no subsequent sequence of `ConsumeEvents`,
`CancelOrder` or `SettleBalance` transactions ever changes it (the queue
has nothing left to process, there is no resting order to cancel, and
settlement touches only pending buckets). -/
theorem taker_overlock_never_released :
    (c10pre.toOption.map
      (fun s => (getBalance s.balances 2).map (fun b => b.locked_quote_balance)))
      = some (some 10) ∧
    c10trace = Except.ok c10state ∧
    (getBalance c10state.balances 2).map (fun b => b.locked_quote_balance) = some 5 ∧
    (0 : Nat) < 5 ∧
    ∀ ops : List Op10,
      (getBalance (run10 c10state ops).balances 2).map
        (fun b => b.locked_quote_balance) = some 5 := by
  refine ⟨by decide, rfl, by decide, by decide, ?_⟩
  intro ops
  exact (run10_preserves ops c10state ⟨by decide, by decide, by decide, by decide⟩).2.2.2

end Clob
